import Mathlib

/-!
# Verification of the goonyclicker multiplayer server

Shallow embedding of the socket-event handlers registered in `src/server.js`
(the `io.on('connection', ...)` block), together with the parts of the
start-synchronization and reveal-relay protocol that the spec describes.

Conventions of the embedding:
* The process-wide `rooms` JavaScript `Map` is modelled as an association
  list with JS `Map` semantics: `set` replaces in place when the key is
  present and appends otherwise, `get` returns the first (unique) binding,
  `delete` removes the binding.
* Connection identifiers (`socket.id`), room codes and player names are
  `String`; client-reported numbers (`score`, `timeLimit`, `multiplier`,
  `y`) are `Int`.
* Socket-io deliveries are reified as an `Emit` output list:
  `Emit.unicast` is `socket.emit`/`io.to(socketId).emit`, `Emit.room` is
  `io.to(roomCode).emit` (every connection joined to the room channel,
  sender included), `Emit.roomExceptSender` is `socket.to(roomCode).emit`.
* A JavaScript handler of shape `({ a, b }) => ...` throws a `TypeError`
  when invoked with `undefined`/`null` as its argument (parameter
  destructuring); this entry condition is modelled by `RawEvent.nullPayload`.
  `Array.prototype.reduce` without an initial value throws a `TypeError`
  on an empty array; this is modelled in `winnerReduce`.  These are the
  only throw points of the handlers, and both precede every mutation, so a
  throwing handler leaves the registry unchanged.
-/

/-- A player record, as constructed by the `create-room` and `join-room`
handlers in `src/server.js`. -/
structure Player where
  id : String
  name : String
  score : Int
  position : Int
  multiplier : Int
  currency : Int
deriving DecidableEq

/-- A room record, as constructed by the `create-room` handler in
`src/server.js`. -/
structure Room where
  players : List Player
  creator : String
  gameStarted : Bool
  timeLimit : Int
deriving DecidableEq

/-- The whole mutable server state: the `rooms` registry (a JS `Map` from
room code to room) plus the socket-io channel membership created by
`socket.join(roomCode)` (pairs of socket id and room code). -/
structure ServerState where
  rooms : List (String × Room)
  channels : List (String × String)
deriving DecidableEq

/-- JS `Map.prototype.get`: the binding of the key, if any (the first one
in the association list; `mapSet` keeps keys unique). -/
def mapGet : List (String × Room) → String → Option Room
  | [], _ => none
  | pr :: rest, k => if pr.1 = k then some pr.2 else mapGet rest k

/-- JS `Map.prototype.set`: replace in place when the key is present,
append otherwise. -/
def mapSet : List (String × Room) → String → Room → List (String × Room)
  | [], k, r => [(k, r)]
  | pr :: rest, k, r =>
      if pr.1 = k then (k, r) :: rest else pr :: mapSet rest k r

/-- Messages emitted by the server (`.emit(eventName, payload)`). -/
inductive Msg where
  | errorMsg (text : String)
  | roomCreated (roomCode : String) (playerId : String) (players : List Player)
  | playerJoined (players : List Player) (roomCode : String) (creator : String)
  | gameStart (players : List Player) (timeLimit : Int)
  | gameOverMsg (winner : Player)
  | scoreUpdate (players : List Player)
  | playerPosition (playerId : String) (y : Int) (isAlive : Bool)
  | playerDiedMsg (playerId : String)
  | gameRestart (players : List Player) (timeLimit : Int)
  | opponentFlap
  | playerLeft (players : List Player)
  | webrtcOfferMsg (offer : String) (fromSock : String)
  | webrtcAnswerMsg (answer : String)
  | webrtcIceMsg (candidate : String)
  | allPlayersReady (startTime : Int)
  | revealPipe (index : Int)
deriving DecidableEq

/-- An outbound delivery: who receives a message. -/
inductive Emit where
  | unicast (target : String) (msg : Msg)
  | room (roomCode : String) (msg : Msg)
  | roomExceptSender (roomCode : String) (sender : String) (msg : Msg)
deriving DecidableEq

/-- The typed inbound events of `src/server.js`, with the payload fields the
clients actually send.  `create-room`'s freshly generated random code
(`Math.random().toString(36).substring(2, 8).toUpperCase()`) is taken as an
oracle input `genCode`.  A payload object missing the `roomCode` property
makes `rooms.get(undefined)` return `undefined`; that behaves exactly like
an unknown code, which the events below already cover. -/
inductive Event where
  | createRoom (genCode : String) (playerName : String) (timeLimit : Option Int)
  | joinRoom (roomCode : String) (playerName : String)
  | startGame (roomCode : String)
  | gameOver (roomCode : String)
  | updateScore (roomCode : String) (score : Int)
  | updatePosition (roomCode : String) (y : Int) (isAlive : Bool)
  | playerDied (roomCode : String)
  | restartGame (roomCode : String)
  | updateMultiplier (roomCode : String) (multiplier : Int)
  | birdFlap (roomCode : String)
  | webrtcOffer (offer : String) (roomCode : String)
  | webrtcAnswer (answer : String) (toSock : String)
  | webrtcIce (candidate : String) (toSock : Option String) (roomCode : Option String)
  | disconnect
deriving DecidableEq

/-- The event kinds whose handlers destructure their payload parameter
(every registered handler except `disconnect`, whose handler is `() => ...`). -/
inductive EventKind where
  | createRoom | joinRoom | startGame | gameOver | updateScore | updatePosition
  | playerDied | restartGame | updateMultiplier | birdFlap
  | webrtcOffer | webrtcAnswer | webrtcIce
deriving DecidableEq

/-- What socket-io hands to a registered handler: either a payload that
destructures (any object, or a primitive other than `null`/`undefined`),
or a `null`/`undefined` payload, which makes the destructuring parameter
throw a `TypeError` before the handler body runs. -/
inductive RawEvent where
  | payload (e : Event)
  | nullPayload (k : EventKind)
deriving DecidableEq

/-- The only exception kind these handlers can raise. -/
inductive JsError where
  | typeError
deriving DecidableEq

/-- JS `x || d` for the numeric `timeLimit` field: `undefined`, `null` and
`0` are falsy. -/
def jsOrDefault (x : Option Int) (d : Int) : Int :=
  match x with
  | none => d
  | some v => if v = 0 then d else v

/-- JS truthiness of an optional string field (`undefined` and `""` falsy). -/
def truthyStr : Option String → Bool
  | none => false
  | some s => s ≠ ""

/-- The player object literal pushed by `create-room` and `join-room`. -/
def newPlayer (sock name : String) : Player :=
  { id := sock, name := name, score := 0, position := 0, multiplier := 1, currency := 0 }

/-- `src/server.js` lines 43-56, the `create-room` handler: install a fresh
room under the generated code (no registry check), join the channel, and
reply `room-created` to the caller. -/
def createRoomStep (s : ServerState) (sock : String) (genCode playerName : String)
    (timeLimit : Option Int) : ServerState × List Emit :=
  let room : Room :=
    { players := [newPlayer sock playerName]
      creator := sock
      gameStarted := false
      timeLimit := jsOrDefault timeLimit 120 }
  ({ rooms := mapSet s.rooms genCode room
     channels := s.channels ++ [(sock, genCode)] },
   [Emit.unicast sock (Msg.roomCreated genCode sock room.players)])

/-- `src/server.js` lines 58-84, the `join-room` handler. -/
def joinRoomStep (s : ServerState) (sock : String) (roomCode playerName : String) :
    ServerState × List Emit :=
  match mapGet s.rooms roomCode with
  | none => (s, [Emit.unicast sock (Msg.errorMsg "Room not found")])
  | some room =>
      if room.players.length ≥ 4 then
        (s, [Emit.unicast sock (Msg.errorMsg "Room is full (max 4 players)")])
      else
        let room' := { room with players := room.players ++ [newPlayer sock playerName] }
        ({ rooms := mapSet s.rooms roomCode room'
           channels := s.channels ++ [(sock, roomCode)] },
         [Emit.room roomCode (Msg.playerJoined room'.players roomCode room.creator)])

/-- `src/server.js` lines 86-103, the `start-game` handler. -/
def startGameStep (s : ServerState) (sock : String) (roomCode : String) :
    ServerState × List Emit :=
  match mapGet s.rooms roomCode with
  | none => (s, [Emit.unicast sock (Msg.errorMsg "Room not found")])
  | some room =>
      if sock ≠ room.creator then
        (s, [Emit.unicast sock (Msg.errorMsg "Only the room creator can start the game")])
      else
        let room' := { room with gameStarted := true }
        ({ s with rooms := mapSet s.rooms roomCode room' },
         [Emit.room roomCode (Msg.gameStart room'.players room'.timeLimit)])

/-- `room.players.reduce((prev, current) => (current.score > prev.score) ?
current : prev)`: JS `reduce` with no initial value throws a `TypeError`
on an empty array and otherwise folds from the first element. -/
def winnerReduce : List Player → Except JsError Player
  | [] => Except.error JsError.typeError
  | p :: ps =>
      Except.ok (ps.foldl (fun prev cur => if cur.score > prev.score then cur else prev) p)

/-- `src/server.js` lines 105-117, the `game-over` handler: unknown room is
silently dropped (no error emit), otherwise the winner fold runs and the
result is broadcast to the room. -/
def gameOverStep (s : ServerState) (sock : String) (roomCode : String) :
    Except JsError (ServerState × List Emit) :=
  match mapGet s.rooms roomCode with
  | none => Except.ok (s, [])
  | some room =>
      match winnerReduce room.players with
      | Except.error e => Except.error e
      | Except.ok w => Except.ok (s, [Emit.room roomCode (Msg.gameOverMsg w)])

/-- `room.players.find(p => p.id === socket.id)` followed by in-place
mutation: only the first player with the given id is updated. -/
def updateFirst (ps : List Player) (sock : String) (f : Player → Player) : List Player :=
  match ps with
  | [] => []
  | p :: rest => if p.id = sock then f p :: rest else p :: updateFirst rest sock f

/-- `src/server.js` lines 119-135, the `update-score` handler: unknown room
or unknown player is silently dropped, otherwise the score is stored
verbatim and a `score-update` snapshot is broadcast. -/
def updateScoreStep (s : ServerState) (sock : String) (roomCode : String) (score : Int) :
    ServerState × List Emit :=
  match mapGet s.rooms roomCode with
  | none => (s, [])
  | some room =>
      if room.players.any (fun p => p.id = sock) then
        let room' := { room with players := updateFirst room.players sock (fun p => { p with score := score }) }
        ({ s with rooms := mapSet s.rooms roomCode room' },
         [Emit.room roomCode (Msg.scoreUpdate room'.players)])
      else (s, [])

/-- `src/server.js` lines 137-146, the `update-position` handler. -/
def updatePositionStep (s : ServerState) (sock : String) (roomCode : String)
    (y : Int) (isAlive : Bool) : ServerState × List Emit :=
  match mapGet s.rooms roomCode with
  | none => (s, [])
  | some _ => (s, [Emit.roomExceptSender roomCode sock (Msg.playerPosition sock y isAlive)])

/-- `src/server.js` lines 148-155, the `player-died` handler. -/
def playerDiedStep (s : ServerState) (sock : String) (roomCode : String) :
    ServerState × List Emit :=
  match mapGet s.rooms roomCode with
  | none => (s, [])
  | some _ => (s, [Emit.room roomCode (Msg.playerDiedMsg sock)])

/-- `src/server.js` lines 157-167, the `restart-game` handler: note that
unlike `start-game` there is no creator check. -/
def restartGameStep (s : ServerState) (sock : String) (roomCode : String) :
    ServerState × List Emit :=
  match mapGet s.rooms roomCode with
  | none => (s, [])
  | some room =>
      let room' := { room with gameStarted := true }
      ({ s with rooms := mapSet s.rooms roomCode room' },
       [Emit.room roomCode (Msg.gameRestart room'.players room'.timeLimit)])

/-- `src/server.js` lines 169-180, the `update-multiplier` handler. -/
def updateMultiplierStep (s : ServerState) (sock : String) (roomCode : String)
    (mult : Int) : ServerState × List Emit :=
  match mapGet s.rooms roomCode with
  | none => (s, [])
  | some room =>
      if room.players.any (fun p => p.id = sock) then
        let room' := { room with players := updateFirst room.players sock (fun p => { p with multiplier := mult }) }
        ({ s with rooms := mapSet s.rooms roomCode room' },
         [Emit.room roomCode (Msg.scoreUpdate room'.players)])
      else (s, [])

/-- `src/server.js` lines 206-218, per-room cleanup of the `disconnect`
handler: drop the departing socket from `players`; delete the room if that
empties it, otherwise keep it (a `player-left` broadcast goes to every
surviving room). -/
def pruneRoom (sock : String) (pr : String × Room) : Option (String × Room) :=
  let room' := { pr.2 with players := pr.2.players.filter (fun p => p.id ≠ sock) }
  if room'.players.isEmpty then none else some (pr.1, room')

/-- `src/server.js` lines 206-218, the `disconnect` handler.  The loop
emits `player-left` to every room that survives the cleanup (the source
does not test whether the departing socket was a member).  Socket-io also
removes the closed socket from every channel. -/
def disconnectStep (s : ServerState) (sock : String) : ServerState × List Emit :=
  let rooms' := s.rooms.filterMap (pruneRoom sock)
  ({ rooms := rooms'
     channels := s.channels.filter (fun pr => pr.1 ≠ sock) },
   rooms'.map (fun pr => Emit.room pr.1 (Msg.playerLeft pr.2.players)))

/-- One handler invocation of the `src/server.js` connection block: the
dispatch over every registered socket event.  A `null`/`undefined` payload
throws in the destructuring parameter before the handler body runs. -/
def serverStep (s : ServerState) (sock : String) : RawEvent → Except JsError (ServerState × List Emit)
  | RawEvent.nullPayload _ => Except.error JsError.typeError
  | RawEvent.payload e =>
      match e with
      | Event.createRoom g n t => Except.ok (createRoomStep s sock g n t)
      | Event.joinRoom c n => Except.ok (joinRoomStep s sock c n)
      | Event.startGame c => Except.ok (startGameStep s sock c)
      | Event.gameOver c => gameOverStep s sock c
      | Event.updateScore c v => Except.ok (updateScoreStep s sock c v)
      | Event.updatePosition c y a => Except.ok (updatePositionStep s sock c y a)
      | Event.playerDied c => Except.ok (playerDiedStep s sock c)
      | Event.restartGame c => Except.ok (restartGameStep s sock c)
      | Event.updateMultiplier c m => Except.ok (updateMultiplierStep s sock c m)
      | Event.birdFlap c => Except.ok (s, [Emit.roomExceptSender c sock Msg.opponentFlap])
      | Event.webrtcOffer off c => Except.ok (s, [Emit.roomExceptSender c sock (Msg.webrtcOfferMsg off sock)])
      | Event.webrtcAnswer ans t => Except.ok (s, [Emit.unicast t (Msg.webrtcAnswerMsg ans)])
      | Event.webrtcIce cand t c =>
          if truthyStr t then Except.ok (s, [Emit.unicast (t.getD "") (Msg.webrtcIceMsg cand)])
          else if truthyStr c then Except.ok (s, [Emit.roomExceptSender (c.getD "") sock (Msg.webrtcIceMsg cand)])
          else Except.ok (s, [])
      | Event.disconnect => Except.ok (disconnectStep s sock)

/-- The server states reachable from process start (empty registry, no
channels) by any sequence of handler invocations.  A throwing invocation
happens before any mutation, so it leaves the state unchanged and is
covered by remaining at `s`. -/
inductive Reachable : ServerState → Prop
  | init : Reachable ⟨[], []⟩
  | step (s : ServerState) (sock : String) (e : RawEvent) (s' : ServerState)
      (out : List Emit) :
      Reachable s → serverStep s sock e = Except.ok (s', out) → Reachable s'

/-- The connections that receive an `Emit.room code` broadcast: every
socket joined to the room's channel. -/
def roomMembers (s : ServerState) (code : String) : List String :=
  (s.channels.filter (fun pr => pr.2 = code)).map (fun pr => pr.1)

/-- The registry invariant maintained by every handler: every live room
has between one and four players, and room codes are pairwise distinct
(the registry is keyed by code). -/
def RoomsOK (m : List (String × Room)) : Prop :=
  (∀ pr ∈ m, pr.2.players ≠ [] ∧ pr.2.players.length ≤ 4) ∧
  (m.map Prod.fst).Nodup

/-- Modelled from the spec: the server side of the start-synchronization
handshake (`player-ready` accumulation in `readySet`, the epoch broadcast
`all-players-ready`, and the bounded ready timeout) is not present under
`src` — `src/server.js` registers no `player-ready` handler; only the
client components emit `player-ready` and listen for `all-players-ready`.
This state is the spec's per-handshake data: the room's channel code, the
connection ids of the current `players`, the accumulated `readySet`, and
whether the single epoch broadcast has been issued. -/
structure Handshake where
  roomCode : String
  players : List String
  readySet : List String
  epochSent : Bool
deriving DecidableEq

/-- Modelled from the spec: the inputs of the start-handshake window — a
`player-ready` signal from a connection, or the firing of the bounded
ready timeout; `now` is the server-clock reading at that instant. -/
inductive HsEvent where
  | ready (sock : String) (now : Int)
  | timeout (now : Int)
deriving DecidableEq

/-- Modelled from the spec (§4.4): a `player-ready` signal is accumulated
in `readySet`; when `readySet` covers all current `players` the server
stamps a single epoch instant and broadcasts it to the room in one
`all-players-ready` message; the bounded timeout force-issues the epoch if
it has not been issued yet, and a stale timer or late ready after the
epoch is a no-op. -/
def hsStep (hs : Handshake) : HsEvent → Handshake × List Emit
  | HsEvent.ready sock now =>
      if hs.epochSent then (hs, [])
      else
        let rs := if sock ∈ hs.readySet then hs.readySet else hs.readySet ++ [sock]
        if ∀ p ∈ hs.players, p ∈ rs then
          ({ hs with readySet := rs, epochSent := true },
           [Emit.room hs.roomCode (Msg.allPlayersReady now)])
        else ({ hs with readySet := rs }, [])
  | HsEvent.timeout now =>
      if hs.epochSent then (hs, [])
      else ({ hs with epochSent := true },
            [Emit.room hs.roomCode (Msg.allPlayersReady now)])

/-- Run a whole start-handshake window: fold `hsStep` over the arriving
events, collecting every broadcast that was emitted. -/
def hsRun (hs : Handshake) : List HsEvent → Handshake × List Emit
  | [] => (hs, [])
  | e :: es =>
      let r1 := hsStep hs e
      let r2 := hsRun r1.1 es
      (r2.1, r1.2 ++ r2.2)

/-- A fresh handshake as entered after the host's start command: empty
`readySet`, epoch not yet issued. -/
def mkHandshake (code : String) (playerIds : List String) : Handshake :=
  { roomCode := code, players := playerIds, readySet := [], epochSent := false }

/-- Modelled from the spec: the server side of the `reveal-obstacle`
(`reveal-pipe`) relay is not present under `src` — `src/server.js`
registers no handler for it; only the clients emit `reveal-pipe` and
listen for it.  Spec §6: "host-only; relayed to room except sender";
§4.5: "the server's role here is purely relay
(broadcast-to-room-except-sender); it does not compute or validate reveal
indices".  The received index is therefore forwarded verbatim. -/
def revealObstacleRelay (room : Room) (sender roomCode : String) (index : Int) : List Emit :=
  if sender = room.creator then
    [Emit.roomExceptSender roomCode sender (Msg.revealPipe index)]
  else []

/-- The empty state at process start. -/
def initialState : ServerState := ⟨[], []⟩

/-- The state after one `create-room` by connection `"a"` generating room
code `"AB"`; used as a concrete reachable state in witnesses. -/
def demo1 : ServerState := (createRoomStep initialState "a" "AB" "Alice" none).1

/-- The room of `demo1`. -/
def demoRoomA : Room :=
  { players := [newPlayer "a" "Alice"], creator := "a", gameStarted := false, timeLimit := 120 }

/-- A three-player room with a score tie at the maximum (players `"b"` and
`"c"` both at 7), used to exhibit the winner tie-break. -/
def demoRoomTie : Room :=
  { players :=
      [{ id := "a", name := "Alice", score := 5, position := 0, multiplier := 1, currency := 0 },
       { id := "b", name := "Bob", score := 7, position := 0, multiplier := 1, currency := 0 },
       { id := "c", name := "Cara", score := 7, position := 0, multiplier := 1, currency := 0 }]
    creator := "a", gameStarted := true, timeLimit := 120 }

/-- A server state holding `demoRoomTie` under code `"AB"`. -/
def demoTieState : ServerState :=
  ⟨[("AB", demoRoomTie)], [("a", "AB"), ("b", "AB"), ("c", "AB")]⟩


theorem mapGet_mapSet_self (m : List (String × Room)) (k : String) (r : Room) :
    mapGet (mapSet m k r) k = some r := by
  induction m with
  | nil => simp [mapSet, mapGet]
  | cons pr rest ih =>
      by_cases h : pr.1 = k
      · simp [mapSet, h, mapGet]
      · simp [mapSet, h, mapGet, ih]

theorem mapGet_mapSet_ne (m : List (String × Room)) (k k' : String) (r : Room)
    (h : k' ≠ k) : mapGet (mapSet m k r) k' = mapGet m k' := by
  induction m with
  | nil =>
      have h' : ¬ k = k' := fun hc => h hc.symm
      simp [mapSet, mapGet, h']
  | cons pr rest ih =>
      by_cases hk : pr.1 = k
      · have h1 : ¬ k = k' := fun hc => h hc.symm
        have h2 : ¬ pr.1 = k' := by rw [hk]; exact h1
        simp [mapSet, hk, mapGet, h1, h2]
      · by_cases hk' : pr.1 = k'
        · simp [mapSet, hk, mapGet, hk', h]
        · simp [mapSet, hk, mapGet, hk', ih]

theorem mem_mapSet (m : List (String × Room)) (k : String) (r : Room)
    (pr : String × Room) (h : pr ∈ mapSet m k r) : pr = (k, r) ∨ pr ∈ m := by
  induction m with
  | nil =>
      rw [mapSet] at h
      exact Or.inl (List.mem_singleton.mp h)
  | cons hd rest ih =>
      by_cases hk : hd.1 = k
      · rw [mapSet, if_pos hk] at h
        rcases List.mem_cons.mp h with h' | h'
        · exact Or.inl h'
        · exact Or.inr (List.mem_cons_of_mem _ h')
      · rw [mapSet, if_neg hk] at h
        rcases List.mem_cons.mp h with h' | h'
        · exact Or.inr (h' ▸ List.mem_cons_self _ _)
        · rcases ih h' with h'' | h''
          · exact Or.inl h''
          · exact Or.inr (List.mem_cons_of_mem _ h'')

theorem mem_keys_mapSet (m : List (String × Room)) (k : String) (r : Room)
    (x : String) (h : x ∈ (mapSet m k r).map Prod.fst) :
    x = k ∨ x ∈ m.map Prod.fst := by
  rcases List.mem_map.mp h with ⟨pr, hpr, hx⟩
  rcases mem_mapSet m k r pr hpr with h' | h'
  · left; rw [← hx, h']
  · right; exact List.mem_map.mpr ⟨pr, h', hx⟩

theorem nodup_keys_mapSet (m : List (String × Room)) (k : String) (r : Room)
    (h : (m.map Prod.fst).Nodup) : ((mapSet m k r).map Prod.fst).Nodup := by
  induction m with
  | nil => simp [mapSet]
  | cons hd rest ih =>
      rw [List.map_cons, List.nodup_cons] at h
      by_cases hk : hd.1 = k
      · rw [mapSet, if_pos hk, List.map_cons, List.nodup_cons]
        exact ⟨by simpa [← hk] using h.1, h.2⟩
      · rw [mapSet, if_neg hk, List.map_cons, List.nodup_cons]
        constructor
        · intro hmem
          rcases mem_keys_mapSet rest k r hd.1 hmem with h' | h'
          · exact hk h'
          · exact h.1 h'
        · exact ih h.2

theorem mapGet_mem (m : List (String × Room)) (k : String) (r : Room)
    (h : mapGet m k = some r) : (k, r) ∈ m := by
  induction m with
  | nil => simp [mapGet] at h
  | cons hd rest ih =>
      by_cases hk : hd.1 = k
      · rw [mapGet, if_pos hk] at h
        have h2 : hd.2 = r := by injection h
        have heq : hd = (k, r) := by
          cases hd
          simp only at hk h2
          rw [hk, h2]
        exact heq ▸ List.mem_cons_self _ _
      · rw [mapGet, if_neg hk] at h
        exact List.mem_cons_of_mem _ (ih h)

theorem mapGet_eq_none_of_not_mem_keys (m : List (String × Room)) (k : String)
    (h : k ∉ m.map Prod.fst) : mapGet m k = none := by
  induction m with
  | nil => rfl
  | cons hd rest ih =>
      rw [List.map_cons] at h
      have h1 : ¬ hd.1 = k := fun hc => h (by rw [← hc]; exact List.mem_cons_self _ _)
      have h2 : k ∉ rest.map Prod.fst := fun hc => h (List.mem_cons_of_mem _ hc)
      rw [mapGet, if_neg h1]
      exact ih h2

theorem length_updateFirst (ps : List Player) (sock : String) (f : Player → Player) :
    (updateFirst ps sock f).length = ps.length := by
  induction ps with
  | nil => rfl
  | cons p rest ih =>
      by_cases h : p.id = sock
      · simp [updateFirst, h]
      · simp [updateFirst, h, ih]

theorem updateFirst_ne_nil (ps : List Player) (sock : String) (f : Player → Player)
    (h : ps ≠ []) : updateFirst ps sock f ≠ [] := by
  intro hc
  apply h
  have hl := length_updateFirst ps sock f
  rw [hc] at hl
  exact List.length_eq_zero.mp hl.symm

theorem pruneRoom_some (sock : String) (pr pr' : String × Room)
    (h : pruneRoom sock pr = some pr') :
    pr'.1 = pr.1 ∧ pr'.2.players = pr.2.players.filter (fun p => p.id ≠ sock) := by
  simp only [pruneRoom] at h
  split at h
  · exact absurd h (by simp)
  · injection h with h'
    rw [← h']
    exact ⟨rfl, rfl⟩

theorem pruneRoom_some_ne_nil (sock : String) (pr pr' : String × Room)
    (h : pruneRoom sock pr = some pr') : pr'.2.players ≠ [] := by
  simp only [pruneRoom] at h
  split at h
  · exact absurd h (by simp)
  · injection h with h'
    rename_i hne
    rw [← h']
    simpa [List.isEmpty_iff] using hne

theorem keys_filterMap_pruneRoom_sublist (sock : String) (m : List (String × Room)) :
    ((m.filterMap (pruneRoom sock)).map Prod.fst).Sublist (m.map Prod.fst) := by
  induction m with
  | nil => simp
  | cons hd rest ih =>
      rw [List.filterMap_cons]
      cases hp : pruneRoom sock hd with
      | none =>
          rw [List.map_cons]
          exact ih.cons _
      | some pr' =>
          rw [List.map_cons, List.map_cons, (pruneRoom_some sock hd pr' hp).1]
          exact ih.cons₂ _

theorem mapGet_filterMap_pruneRoom (sock : String) (m : List (String × Room))
    (k : String) (r : Room) (hnd : (m.map Prod.fst).Nodup) (h : mapGet m k = some r) :
    mapGet (m.filterMap (pruneRoom sock)) k = Option.map Prod.snd (pruneRoom sock (k, r)) := by
  induction m with
  | nil => simp [mapGet] at h
  | cons hd rest ih =>
      rw [List.map_cons, List.nodup_cons] at hnd
      rw [List.filterMap_cons]
      by_cases hk : hd.1 = k
      · rw [mapGet, if_pos hk] at h
        have h2 : hd.2 = r := by injection h
        have hhd : hd = (k, r) := by
          cases hd
          simp only at hk h2
          rw [hk, h2]
        have hnotin : k ∉ rest.map Prod.fst := by
          rw [← hk]; exact hnd.1
        cases hp : pruneRoom sock (k, r) with
        | none =>
            rw [hhd, hp]
            have hfnone : mapGet (rest.filterMap (pruneRoom sock)) k = none := by
              apply mapGet_eq_none_of_not_mem_keys
              intro hc
              exact hnotin ((keys_filterMap_pruneRoom_sublist sock rest).subset hc)
            simpa using hfnone
        | some pr' =>
            rw [hhd, hp]
            have hkey : pr'.1 = k := (pruneRoom_some sock (k, r) pr' hp).1
            rw [mapGet, if_pos hkey]
            rfl
      · rw [mapGet, if_neg hk] at h
        cases hp : pruneRoom sock hd with
        | none => exact ih hnd.2 h
        | some pr' =>
            have hkey : pr'.1 = hd.1 := (pruneRoom_some sock hd pr' hp).1
            rw [mapGet, if_neg (by rw [hkey]; exact hk)]
            exact ih hnd.2 h

theorem joinRoomStep_not_found (s : ServerState) (sock c n : String)
    (hget : mapGet s.rooms c = none) :
    joinRoomStep s sock c n = (s, [Emit.unicast sock (Msg.errorMsg "Room not found")]) := by
  simp [joinRoomStep, hget]

theorem joinRoomStep_full (s : ServerState) (sock c n : String) (room : Room)
    (hget : mapGet s.rooms c = some room) (hfull : room.players.length ≥ 4) :
    joinRoomStep s sock c n = (s, [Emit.unicast sock (Msg.errorMsg "Room is full (max 4 players)")]) := by
  simp [joinRoomStep, hget, hfull]

theorem joinRoomStep_adds (s : ServerState) (sock c n : String) (room : Room)
    (hget : mapGet s.rooms c = some room) (hcap : room.players.length < 4) :
    joinRoomStep s sock c n =
      ({ rooms := mapSet s.rooms c { room with players := room.players ++ [newPlayer sock n] }
         channels := s.channels ++ [(sock, c)] },
       [Emit.room c (Msg.playerJoined (room.players ++ [newPlayer sock n]) c room.creator)]) := by
  have hnf : ¬ room.players.length ≥ 4 := by omega
  simp [joinRoomStep, hget, hnf]

theorem startGameStep_not_found (s : ServerState) (sock c : String)
    (hget : mapGet s.rooms c = none) :
    startGameStep s sock c = (s, [Emit.unicast sock (Msg.errorMsg "Room not found")]) := by
  simp [startGameStep, hget]

theorem startGameStep_not_creator (s : ServerState) (sock c : String) (room : Room)
    (hget : mapGet s.rooms c = some room) (hne : sock ≠ room.creator) :
    startGameStep s sock c =
      (s, [Emit.unicast sock (Msg.errorMsg "Only the room creator can start the game")]) := by
  simp [startGameStep, hget, hne]

theorem startGameStep_creator (s : ServerState) (sock c : String) (room : Room)
    (hget : mapGet s.rooms c = some room) (heq : sock = room.creator) :
    startGameStep s sock c =
      ({ s with rooms := mapSet s.rooms c { room with gameStarted := true } },
       [Emit.room c (Msg.gameStart room.players room.timeLimit)]) := by
  simp [startGameStep, hget, heq]

theorem gameOverStep_not_found (s : ServerState) (sock c : String)
    (hget : mapGet s.rooms c = none) : gameOverStep s sock c = Except.ok (s, []) := by
  simp [gameOverStep, hget]

theorem gameOverStep_found (s : ServerState) (sock c : String) (room : Room)
    (p : Player) (ps : List Player) (hget : mapGet s.rooms c = some room)
    (hps : room.players = p :: ps) :
    gameOverStep s sock c =
      Except.ok (s, [Emit.room c (Msg.gameOverMsg
        (ps.foldl (fun prev cur => if cur.score > prev.score then cur else prev) p))]) := by
  simp [gameOverStep, hget, hps, winnerReduce]

theorem updateScoreStep_not_found (s : ServerState) (sock c : String) (v : Int)
    (hget : mapGet s.rooms c = none) : updateScoreStep s sock c v = (s, []) := by
  simp [updateScoreStep, hget]

theorem updateScoreStep_found (s : ServerState) (sock c : String) (v : Int) (room : Room)
    (hget : mapGet s.rooms c = some room) (hmem : room.players.any (fun p => p.id = sock)) :
    updateScoreStep s sock c v =
      ({ s with rooms := (mapSet s.rooms c
          { room with players := updateFirst room.players sock (fun p => { p with score := v }) }) },
       [Emit.room c (Msg.scoreUpdate (updateFirst room.players sock (fun p => { p with score := v })))]) := by
  simp [updateScoreStep, hget, hmem]

theorem updateScoreStep_no_player (s : ServerState) (sock c : String) (v : Int) (room : Room)
    (hget : mapGet s.rooms c = some room) (hmem : ¬ room.players.any (fun p => p.id = sock)) :
    updateScoreStep s sock c v = (s, []) := by
  simp [updateScoreStep, hget, hmem]

theorem updatePositionStep_not_found (s : ServerState) (sock c : String) (y : Int) (a : Bool)
    (hget : mapGet s.rooms c = none) : updatePositionStep s sock c y a = (s, []) := by
  simp [updatePositionStep, hget]

theorem updatePositionStep_found (s : ServerState) (sock c : String) (y : Int) (a : Bool)
    (room : Room) (hget : mapGet s.rooms c = some room) :
    updatePositionStep s sock c y a =
      (s, [Emit.roomExceptSender c sock (Msg.playerPosition sock y a)]) := by
  simp [updatePositionStep, hget]

theorem playerDiedStep_not_found (s : ServerState) (sock c : String)
    (hget : mapGet s.rooms c = none) : playerDiedStep s sock c = (s, []) := by
  simp [playerDiedStep, hget]

theorem playerDiedStep_found (s : ServerState) (sock c : String) (room : Room)
    (hget : mapGet s.rooms c = some room) :
    playerDiedStep s sock c = (s, [Emit.room c (Msg.playerDiedMsg sock)]) := by
  simp [playerDiedStep, hget]

theorem restartGameStep_not_found (s : ServerState) (sock c : String)
    (hget : mapGet s.rooms c = none) : restartGameStep s sock c = (s, []) := by
  simp [restartGameStep, hget]

theorem restartGameStep_found (s : ServerState) (sock c : String) (room : Room)
    (hget : mapGet s.rooms c = some room) :
    restartGameStep s sock c =
      ({ s with rooms := mapSet s.rooms c { room with gameStarted := true } },
       [Emit.room c (Msg.gameRestart room.players room.timeLimit)]) := by
  simp [restartGameStep, hget]

theorem updateMultiplierStep_not_found (s : ServerState) (sock c : String) (v : Int)
    (hget : mapGet s.rooms c = none) : updateMultiplierStep s sock c v = (s, []) := by
  simp [updateMultiplierStep, hget]

theorem updateMultiplierStep_found (s : ServerState) (sock c : String) (v : Int) (room : Room)
    (hget : mapGet s.rooms c = some room) (hmem : room.players.any (fun p => p.id = sock)) :
    updateMultiplierStep s sock c v =
      ({ s with rooms := (mapSet s.rooms c
          { room with players := updateFirst room.players sock (fun p => { p with multiplier := v }) }) },
       [Emit.room c (Msg.scoreUpdate (updateFirst room.players sock (fun p => { p with multiplier := v })))]) := by
  simp [updateMultiplierStep, hget, hmem]

theorem updateMultiplierStep_no_player (s : ServerState) (sock c : String) (v : Int) (room : Room)
    (hget : mapGet s.rooms c = some room) (hmem : ¬ room.players.any (fun p => p.id = sock)) :
    updateMultiplierStep s sock c v = (s, []) := by
  simp [updateMultiplierStep, hget, hmem]

theorem roomsOK_set_room (m : List (String × Room)) (c : String) (r : Room)
    (hok : RoomsOK m) (h1 : r.players ≠ []) (h2 : r.players.length ≤ 4) :
    RoomsOK (mapSet m c r) := by
  constructor
  · intro pr hpr
    rcases mem_mapSet _ _ _ pr hpr with h' | h'
    · rw [h']
      exact ⟨h1, h2⟩
    · exact hok.1 pr h'
  · exact nodup_keys_mapSet _ _ _ hok.2

theorem roomsOK_createRoomStep (s : ServerState) (sock g n : String) (t : Option Int)
    (hok : RoomsOK s.rooms) : RoomsOK (createRoomStep s sock g n t).1.rooms := by
  exact roomsOK_set_room _ _ _ hok (by simp) (by simp)

theorem roomsOK_joinRoomStep (s : ServerState) (sock c n : String)
    (hok : RoomsOK s.rooms) : RoomsOK (joinRoomStep s sock c n).1.rooms := by
  cases hget : mapGet s.rooms c with
  | none => rw [joinRoomStep_not_found s sock c n hget]; exact hok
  | some room =>
      by_cases hfull : room.players.length ≥ 4
      · rw [joinRoomStep_full s sock c n room hget hfull]; exact hok
      · rw [joinRoomStep_adds s sock c n room hget (by omega)]
        refine roomsOK_set_room _ _ _ hok (by simp) ?_
        simp only [List.length_append, List.length_singleton]
        omega

theorem roomsOK_startGameStep (s : ServerState) (sock c : String)
    (hok : RoomsOK s.rooms) : RoomsOK (startGameStep s sock c).1.rooms := by
  cases hget : mapGet s.rooms c with
  | none => rw [startGameStep_not_found s sock c hget]; exact hok
  | some room =>
      by_cases hcr : sock = room.creator
      · rw [startGameStep_creator s sock c room hget hcr]
        have hr := hok.1 (c, room) (mapGet_mem s.rooms c room hget)
        exact roomsOK_set_room _ _ _ hok hr.1 hr.2
      · rw [startGameStep_not_creator s sock c room hget hcr]; exact hok

theorem roomsOK_restartGameStep (s : ServerState) (sock c : String)
    (hok : RoomsOK s.rooms) : RoomsOK (restartGameStep s sock c).1.rooms := by
  cases hget : mapGet s.rooms c with
  | none => rw [restartGameStep_not_found s sock c hget]; exact hok
  | some room =>
      rw [restartGameStep_found s sock c room hget]
      have hr := hok.1 (c, room) (mapGet_mem s.rooms c room hget)
      exact roomsOK_set_room _ _ _ hok hr.1 hr.2

theorem roomsOK_updateScoreStep (s : ServerState) (sock c : String) (v : Int)
    (hok : RoomsOK s.rooms) : RoomsOK (updateScoreStep s sock c v).1.rooms := by
  cases hget : mapGet s.rooms c with
  | none => rw [updateScoreStep_not_found s sock c v hget]; exact hok
  | some room =>
      by_cases hmem : room.players.any (fun p => p.id = sock)
      · rw [updateScoreStep_found s sock c v room hget hmem]
        have hr := hok.1 (c, room) (mapGet_mem s.rooms c room hget)
        refine roomsOK_set_room _ _ _ hok (updateFirst_ne_nil _ _ _ hr.1) ?_
        rw [length_updateFirst]
        exact hr.2
      · rw [updateScoreStep_no_player s sock c v room hget hmem]; exact hok

theorem roomsOK_updateMultiplierStep (s : ServerState) (sock c : String) (v : Int)
    (hok : RoomsOK s.rooms) : RoomsOK (updateMultiplierStep s sock c v).1.rooms := by
  cases hget : mapGet s.rooms c with
  | none => rw [updateMultiplierStep_not_found s sock c v hget]; exact hok
  | some room =>
      by_cases hmem : room.players.any (fun p => p.id = sock)
      · rw [updateMultiplierStep_found s sock c v room hget hmem]
        have hr := hok.1 (c, room) (mapGet_mem s.rooms c room hget)
        refine roomsOK_set_room _ _ _ hok (updateFirst_ne_nil _ _ _ hr.1) ?_
        rw [length_updateFirst]
        exact hr.2
      · rw [updateMultiplierStep_no_player s sock c v room hget hmem]; exact hok

theorem roomsOK_disconnectStep (s : ServerState) (sock : String)
    (hok : RoomsOK s.rooms) : RoomsOK (disconnectStep s sock).1.rooms := by
  constructor
  · intro pr hpr
    rcases List.mem_filterMap.mp hpr with ⟨pr0, hpr0, hp⟩
    constructor
    · exact pruneRoom_some_ne_nil sock pr0 pr hp
    · rw [(pruneRoom_some sock pr0 pr hp).2]
      calc (pr0.2.players.filter (fun p => p.id ≠ sock)).length
          ≤ pr0.2.players.length := List.length_filter_le _ _
        _ ≤ 4 := (hok.1 pr0 hpr0).2
  · exact ((keys_filterMap_pruneRoom_sublist sock s.rooms).nodup hok.2)

theorem gameOverStep_state (s : ServerState) (sock c : String) (s' : ServerState)
    (out : List Emit) (h : gameOverStep s sock c = Except.ok (s', out)) : s' = s := by
  cases hget : mapGet s.rooms c with
  | none =>
      rw [gameOverStep_not_found s sock c hget] at h
      injection h with h'
      exact (congrArg Prod.fst h').symm
  | some room =>
      cases hps : room.players with
      | nil =>
          unfold gameOverStep at h
          rw [hget] at h
          simp only [winnerReduce, hps] at h
          exact absurd h (by simp)
      | cons p ps =>
          rw [gameOverStep_found s sock c room p ps hget hps] at h
          injection h with h'
          exact (congrArg Prod.fst h').symm

theorem fst_of_pair_eq {α β : Type} {x : α × β} {a : α} {b : β}
    (h : x = (a, b)) : a = x.1 := by rw [h]

theorem snd_of_pair_eq {α β : Type} {x : α × β} {a : α} {b : β}
    (h : x = (a, b)) : b = x.2 := by rw [h]

theorem roomsOK_serverStep (s : ServerState) (sock : String) (e : RawEvent)
    (s' : ServerState) (out : List Emit) (hok : RoomsOK s.rooms)
    (h : serverStep s sock e = Except.ok (s', out)) : RoomsOK s'.rooms := by
  cases e with
  | nullPayload k => simp [serverStep] at h
  | payload ev =>
      cases ev with
      | createRoom g n t =>
          simp only [serverStep] at h
          injection h with h'
          rw [fst_of_pair_eq h']
          exact roomsOK_createRoomStep s sock g n t hok
      | joinRoom c n =>
          simp only [serverStep] at h
          injection h with h'
          rw [fst_of_pair_eq h']
          exact roomsOK_joinRoomStep s sock c n hok
      | startGame c =>
          simp only [serverStep] at h
          injection h with h'
          rw [fst_of_pair_eq h']
          exact roomsOK_startGameStep s sock c hok
      | gameOver c =>
          simp only [serverStep] at h
          rw [gameOverStep_state s sock c s' out h]
          exact hok
      | updateScore c v =>
          simp only [serverStep] at h
          injection h with h'
          rw [fst_of_pair_eq h']
          exact roomsOK_updateScoreStep s sock c v hok
      | updatePosition c y a =>
          simp only [serverStep] at h
          injection h with h'
          cases hget : mapGet s.rooms c with
          | none =>
              rw [updatePositionStep_not_found s sock c y a hget] at h'
              rw [fst_of_pair_eq h']
              exact hok
          | some room =>
              rw [updatePositionStep_found s sock c y a room hget] at h'
              rw [fst_of_pair_eq h']
              exact hok
      | playerDied c =>
          simp only [serverStep] at h
          injection h with h'
          cases hget : mapGet s.rooms c with
          | none =>
              rw [playerDiedStep_not_found s sock c hget] at h'
              rw [fst_of_pair_eq h']
              exact hok
          | some room =>
              rw [playerDiedStep_found s sock c room hget] at h'
              rw [fst_of_pair_eq h']
              exact hok
      | restartGame c =>
          simp only [serverStep] at h
          injection h with h'
          rw [fst_of_pair_eq h']
          exact roomsOK_restartGameStep s sock c hok
      | updateMultiplier c m =>
          simp only [serverStep] at h
          injection h with h'
          rw [fst_of_pair_eq h']
          exact roomsOK_updateMultiplierStep s sock c m hok
      | birdFlap c =>
          simp only [serverStep] at h
          injection h with h'
          rw [fst_of_pair_eq h']
          exact hok
      | webrtcOffer off c =>
          simp only [serverStep] at h
          injection h with h'
          rw [fst_of_pair_eq h']
          exact hok
      | webrtcAnswer ans t =>
          simp only [serverStep] at h
          injection h with h'
          rw [fst_of_pair_eq h']
          exact hok
      | webrtcIce cand t c =>
          simp only [serverStep] at h
          by_cases ht : truthyStr t
          · rw [if_pos ht] at h
            injection h with h'
            rw [fst_of_pair_eq h']
            exact hok
          · rw [if_neg ht] at h
            by_cases hc : truthyStr c
            · rw [if_pos hc] at h
              injection h with h'
              rw [fst_of_pair_eq h']
              exact hok
            · rw [if_neg hc] at h
              injection h with h'
              rw [fst_of_pair_eq h']
              exact hok
      | disconnect =>
          simp only [serverStep] at h
          injection h with h'
          rw [fst_of_pair_eq h']
          exact roomsOK_disconnectStep s sock hok

theorem reachable_roomsOK (s : ServerState) (h : Reachable s) : RoomsOK s.rooms := by
  induction h with
  | init => exact ⟨by simp, by simp⟩
  | step s sock e s' out hr hstep ih => exact roomsOK_serverStep s sock e s' out ih hstep

theorem winnerFold_first_max (t : List Player) (a : Player) :
    ∃ l1 l2,
      a :: t = l1 ++ (t.foldl (fun prev cur => if cur.score > prev.score then cur else prev) a) :: l2 ∧
      (∀ p ∈ l1, p.score < (t.foldl (fun prev cur => if cur.score > prev.score then cur else prev) a).score) ∧
      (∀ p ∈ a :: t, p.score ≤ (t.foldl (fun prev cur => if cur.score > prev.score then cur else prev) a).score) := by
  induction t generalizing a with
  | nil => exact ⟨[], [], rfl, by simp, by simp⟩
  | cons b t ih =>
      rw [List.foldl_cons]
      by_cases hb : b.score > a.score
      · rw [if_pos hb]
        obtain ⟨l1, l2, hdec, hlt, hle⟩ := ih b
        have hbw : b.score ≤ (t.foldl (fun prev cur => if cur.score > prev.score then cur else prev) b).score :=
          hle b (List.mem_cons_self _ _)
        refine ⟨a :: l1, l2, ?_, ?_, ?_⟩
        · rw [List.cons_append, ← hdec]
        · intro p hp
          rcases List.mem_cons.mp hp with h' | h'
          · rw [h']
            exact lt_of_lt_of_le hb hbw
          · exact hlt p h'
        · intro p hp
          rcases List.mem_cons.mp hp with h' | h'
          · rw [h']
            exact le_trans (le_of_lt hb) hbw
          · exact hle p h'
      · rw [if_neg hb]
        obtain ⟨l1, l2, hdec, hlt, hle⟩ := ih a
        cases l1 with
        | nil =>
            rw [List.nil_append] at hdec
            have ha : a = t.foldl (fun prev cur => if cur.score > prev.score then cur else prev) a :=
              (List.cons_eq_cons.mp hdec).1
            refine ⟨[], b :: t, ?_, by simp, ?_⟩
            · rw [List.nil_append, ← ha]
            · intro p hp
              have haw : a.score ≤ (t.foldl (fun prev cur => if cur.score > prev.score then cur else prev) a).score :=
                hle a (List.mem_cons_self _ _)
              rcases List.mem_cons.mp hp with h' | h'
              · rw [h']; exact haw
              · rcases List.mem_cons.mp h' with h'' | h''
                · rw [h'']
                  exact le_trans (le_of_not_lt hb) haw
                · exact hle p (List.mem_cons_of_mem _ h'')
        | cons a0 l1' =>
            rw [List.cons_append] at hdec
            have ha0 : a = a0 := (List.cons_eq_cons.mp hdec).1
            have ht : t = l1' ++ (t.foldl (fun prev cur => if cur.score > prev.score then cur else prev) a) :: l2 :=
              (List.cons_eq_cons.mp hdec).2
            have haw : a.score < (t.foldl (fun prev cur => if cur.score > prev.score then cur else prev) a).score := by
              have hfact := hlt a0 (List.mem_cons_self _ _)
              rwa [← ha0] at hfact
            refine ⟨a :: b :: l1', l2, ?_, ?_, ?_⟩
            · rw [List.cons_append, List.cons_append]
              rw [← ht]
            · intro p hp
              rcases List.mem_cons.mp hp with h' | h'
              · rw [h']; exact haw
              · rcases List.mem_cons.mp h' with h'' | h''
                · rw [h'']
                  exact lt_of_le_of_lt (le_of_not_lt hb) haw
                · exact hlt p (List.mem_cons_of_mem _ h'')
            · intro p hp
              have haw' : a.score ≤ (t.foldl (fun prev cur => if cur.score > prev.score then cur else prev) a).score :=
                le_of_lt haw
              rcases List.mem_cons.mp hp with h' | h'
              · rw [h']; exact haw'
              · rcases List.mem_cons.mp h' with h'' | h''
                · rw [h'']
                  exact le_trans (le_of_not_lt hb) haw'
                · exact hle p (List.mem_cons_of_mem _ h'')

theorem hsStep_count (hs : Handshake) (e : HsEvent) :
    (hsStep hs e).2.length + (if hs.epochSent then 1 else 0) =
      (if (hsStep hs e).1.epochSent then 1 else 0) := by
  cases e with
  | ready sock now =>
      by_cases h : hs.epochSent
      · simp [hsStep, h]
      · simp only [hsStep, h, Bool.false_eq_true, if_false]
        by_cases hc : ∀ p ∈ hs.players, p ∈ (if sock ∈ hs.readySet then hs.readySet else hs.readySet ++ [sock])
        · rw [if_pos hc]
          simp
        · rw [if_neg hc]
          simp [h]
  | timeout now =>
      by_cases h : hs.epochSent
      · simp [hsStep, h]
      · simp [hsStep, h]

theorem hsRun_count (es : List HsEvent) (hs : Handshake) :
    (hsRun hs es).2.length + (if hs.epochSent then 1 else 0) =
      (if (hsRun hs es).1.epochSent then 1 else 0) := by
  induction es generalizing hs with
  | nil => simp [hsRun]
  | cons e es ih =>
      have h1 := hsStep_count hs e
      have h2 := ih (hsStep hs e).1
      simp only [hsRun, List.length_append]
      omega

theorem hsStep_epochSent_mono (hs : Handshake) (e : HsEvent) (h : hs.epochSent = true) :
    (hsStep hs e).1.epochSent = true := by
  cases e with
  | ready sock now => simp [hsStep, h]
  | timeout now => simp [hsStep, h]

theorem hsRun_epochSent_mono (es : List HsEvent) (hs : Handshake) (h : hs.epochSent = true) :
    (hsRun hs es).1.epochSent = true := by
  induction es generalizing hs with
  | nil => simpa [hsRun] using h
  | cons e es ih => exact ih (hsStep hs e).1 (hsStep_epochSent_mono hs e h)

theorem hsStep_timeout_sent (hs : Handshake) (t : Int) :
    (hsStep hs (HsEvent.timeout t)).1.epochSent = true := by
  by_cases h : hs.epochSent
  · simp [hsStep, h]
  · simp [hsStep, h]

theorem hsRun_append (hs : Handshake) (es es' : List HsEvent) :
    hsRun hs (es ++ es') =
      ((hsRun (hsRun hs es).1 es').1, (hsRun hs es).2 ++ (hsRun (hsRun hs es).1 es').2) := by
  induction es generalizing hs with
  | nil => simp [hsRun]
  | cons e es ih => simp [hsRun, ih, List.append_assoc]

theorem hsStep_players (hs : Handshake) (e : HsEvent) :
    (hsStep hs e).1.players = hs.players := by
  cases e with
  | ready sock now =>
      by_cases h : hs.epochSent
      · simp [hsStep, h]
      · simp only [hsStep, h, Bool.false_eq_true, if_false]
        by_cases hc : ∀ p ∈ hs.players, p ∈ (if sock ∈ hs.readySet then hs.readySet else hs.readySet ++ [sock])
        · rw [if_pos hc]
        · rw [if_neg hc]
  | timeout now =>
      by_cases h : hs.epochSent
      · simp [hsStep, h]
      · simp [hsStep, h]

theorem hsRun_players (es : List HsEvent) (hs : Handshake) :
    (hsRun hs es).1.players = hs.players := by
  induction es generalizing hs with
  | nil => simp [hsRun]
  | cons e es ih =>
      simp only [hsRun]
      rw [ih (hsStep hs e).1, hsStep_players]

theorem hsStep_roomCode (hs : Handshake) (e : HsEvent) :
    (hsStep hs e).1.roomCode = hs.roomCode := by
  cases e with
  | ready sock now =>
      by_cases h : hs.epochSent
      · simp [hsStep, h]
      · simp only [hsStep, h, Bool.false_eq_true, if_false]
        by_cases hc : ∀ p ∈ hs.players, p ∈ (if sock ∈ hs.readySet then hs.readySet else hs.readySet ++ [sock])
        · rw [if_pos hc]
        · rw [if_neg hc]
  | timeout now =>
      by_cases h : hs.epochSent
      · simp [hsStep, h]
      · simp [hsStep, h]

theorem hsStep_readySet_mono (hs : Handshake) (e : HsEvent) (x : String)
    (h : x ∈ hs.readySet) : x ∈ (hsStep hs e).1.readySet := by
  cases e with
  | ready sock now =>
      by_cases hsd : hs.epochSent
      · simpa [hsStep, hsd] using h
      · simp only [hsStep, hsd, Bool.false_eq_true, if_false]
        by_cases hc : ∀ p ∈ hs.players, p ∈ (if sock ∈ hs.readySet then hs.readySet else hs.readySet ++ [sock])
        · rw [if_pos hc]
          by_cases hin : sock ∈ hs.readySet
          · rw [if_pos hin]; exact h
          · rw [if_neg hin]; exact List.mem_append_left _ h
        · rw [if_neg hc]
          by_cases hin : sock ∈ hs.readySet
          · rw [if_pos hin]; exact h
          · rw [if_neg hin]; exact List.mem_append_left _ h
  | timeout now =>
      by_cases hsd : hs.epochSent
      · simpa [hsStep, hsd] using h
      · simpa [hsStep, hsd] using h

theorem hsRun_readySet_mono (es : List HsEvent) (hs : Handshake) (x : String)
    (h : x ∈ hs.readySet) : x ∈ (hsRun hs es).1.readySet := by
  induction es generalizing hs with
  | nil => simpa [hsRun] using h
  | cons e es ih => exact ih (hsStep hs e).1 (hsStep_readySet_mono hs e x h)

theorem hsStep_ready_adds (hs : Handshake) (sock : String) (t : Int)
    (hmid : (hsStep hs (HsEvent.ready sock t)).1.epochSent = false) :
    sock ∈ (hsStep hs (HsEvent.ready sock t)).1.readySet := by
  by_cases hsd : hs.epochSent
  · rw [show (hsStep hs (HsEvent.ready sock t)).1 = hs by simp [hsStep, hsd]] at hmid
    rw [hsd] at hmid
    exact absurd hmid (by simp)
  · simp only [hsStep, hsd, Bool.false_eq_true, if_false] at hmid ⊢
    by_cases hc : ∀ p ∈ hs.players, p ∈ (if sock ∈ hs.readySet then hs.readySet else hs.readySet ++ [sock])
    · rw [if_pos hc] at hmid
      simp at hmid
    · rw [if_neg hc]
      by_cases hin : sock ∈ hs.readySet
      · rw [if_pos hin]; exact hin
      · rw [if_neg hin]
        exact List.mem_append_right _ (List.mem_singleton.mpr rfl)

theorem hsRun_ready_in_readySet (es : List HsEvent) (hs : Handshake) (sock : String) (t : Int)
    (hfin : (hsRun hs es).1.epochSent = false) (hmem : HsEvent.ready sock t ∈ es) :
    sock ∈ (hsRun hs es).1.readySet := by
  induction es generalizing hs with
  | nil => simp at hmem
  | cons e es ih =>
      rcases List.mem_cons.mp hmem with h' | h'
      · have hmid : (hsStep hs e).1.epochSent = false := by
          by_contra hcc
          rw [Bool.not_eq_false] at hcc
          have hmono := hsRun_epochSent_mono es (hsStep hs e).1 hcc
          have hfin' : (hsRun (hsStep hs e).1 es).1.epochSent = false := by
            simpa [hsRun] using hfin
          rw [hfin'] at hmono
          exact Bool.false_ne_true hmono
        rw [← h'] at hmid
        have hadds : sock ∈ (hsStep hs e).1.readySet := by
          rw [← h']
          exact hsStep_ready_adds hs sock t (by rw [h'] at hmid ⊢; exact hmid)
        simp only [hsRun]
        exact hsRun_readySet_mono es _ sock hadds
      · simp only [hsRun]
        exact ih (hsStep hs e).1 (by simpa [hsRun] using hfin) h'

theorem hsStep_no_cover (hs : Handshake) (e : HsEvent)
    (hinv : hs.epochSent = false → ¬ ∀ p ∈ hs.players, p ∈ hs.readySet)
    (hfin : (hsStep hs e).1.epochSent = false) :
    ¬ ∀ p ∈ (hsStep hs e).1.players, p ∈ (hsStep hs e).1.readySet := by
  cases e with
  | ready sock now =>
      by_cases hsd : hs.epochSent
      · have hmono := hsStep_epochSent_mono hs (HsEvent.ready sock now) hsd
        rw [hfin] at hmono
        exact absurd hmono (by simp)
      · simp only [hsStep, hsd, Bool.false_eq_true, if_false] at hfin ⊢
        by_cases hc : ∀ p ∈ hs.players, p ∈ (if sock ∈ hs.readySet then hs.readySet else hs.readySet ++ [sock])
        · rw [if_pos hc] at hfin
          simp at hfin
        · rw [if_neg hc] at hfin ⊢
          exact hc
  | timeout now =>
      have hsent := hsStep_timeout_sent hs now
      rw [hfin] at hsent
      exact absurd hsent (by simp)

theorem hsRun_no_cover (es : List HsEvent) (hs : Handshake)
    (hinv : hs.epochSent = false → ¬ ∀ p ∈ hs.players, p ∈ hs.readySet)
    (hfin : (hsRun hs es).1.epochSent = false) :
    ¬ ∀ p ∈ (hsRun hs es).1.players, p ∈ (hsRun hs es).1.readySet := by
  induction es generalizing hs with
  | nil =>
      have h0 : hs.epochSent = false := by simpa [hsRun] using hfin
      simpa [hsRun] using hinv h0
  | cons e es ih =>
      simp only [hsRun] at hfin ⊢
      exact ih (hsStep hs e).1 (fun hmid => hsStep_no_cover hs e hinv hmid) hfin

theorem hsStep_out_shape (hs : Handshake) (e : HsEvent) (x : Emit)
    (hx : x ∈ (hsStep hs e).2) : ∃ t, x = Emit.room hs.roomCode (Msg.allPlayersReady t) := by
  cases e with
  | ready sock now =>
      by_cases hsd : hs.epochSent
      · simp [hsStep, hsd] at hx
      · simp only [hsStep, hsd, Bool.false_eq_true, if_false] at hx
        by_cases hc : ∀ p ∈ hs.players, p ∈ (if sock ∈ hs.readySet then hs.readySet else hs.readySet ++ [sock])
        · rw [if_pos hc] at hx
          simp only [List.mem_singleton] at hx
          exact ⟨now, hx⟩
        · rw [if_neg hc] at hx
          simp at hx
  | timeout now =>
      by_cases hsd : hs.epochSent
      · simp [hsStep, hsd] at hx
      · simp only [hsStep, hsd, Bool.false_eq_true, if_false, List.mem_singleton] at hx
        exact ⟨now, hx⟩

theorem hsRun_out_shape (es : List HsEvent) (hs : Handshake) (x : Emit)
    (hx : x ∈ (hsRun hs es).2) : ∃ t, x = Emit.room hs.roomCode (Msg.allPlayersReady t) := by
  induction es generalizing hs with
  | nil => simp [hsRun] at hx
  | cons e es ih =>
      simp only [hsRun, List.mem_append] at hx
      rcases hx with hx | hx
      · exact hsStep_out_shape hs e x hx
      · obtain ⟨t, ht⟩ := ih (hsStep hs e).1 hx
        rw [hsStep_roomCode] at ht
        exact ⟨t, ht⟩

/-- C1: for every start handshake in a room (spec-modelled: the server-side
`player-ready` / `all-players-ready` handling is absent from `src`, so it is
modelled from the spec in `hsStep`): over any event sequence at most one
epoch broadcast is emitted; any run closed by the bounded ready timeout
emits exactly one; a run in which every connection in the room's current
players sent `player-ready` emits exactly one even without the timeout; and
every emitted broadcast is a single `all-players-ready` room message
stamped with one server-clock instant.  Hence per handshake exactly one
epoch broadcast — never zero and never two. -/
theorem start_handshake_single_epoch (code : String) (playerIds : List String)
    (hne : playerIds ≠ []) :
    (∀ es, (hsRun (mkHandshake code playerIds) es).2.length ≤ 1) ∧
    (∀ es t, (hsRun (mkHandshake code playerIds) (es ++ [HsEvent.timeout t])).2.length = 1) ∧
    (∀ es, (∀ p ∈ playerIds, ∃ t, HsEvent.ready p t ∈ es) →
      (hsRun (mkHandshake code playerIds) es).2.length = 1) ∧
    (∀ es x, x ∈ (hsRun (mkHandshake code playerIds) es).2 →
      ∃ t, x = Emit.room code (Msg.allPlayersReady t)) := by
  have hbase : (mkHandshake code playerIds).epochSent = false := rfl
  refine ⟨?_, ?_, ?_, ?_⟩
  · intro es
    have hcount := hsRun_count es (mkHandshake code playerIds)
    rw [hbase] at hcount
    rcases Bool.eq_false_or_eq_true (hsRun (mkHandshake code playerIds) es).1.epochSent with hf | hf
    · rw [hf] at hcount
      rw [show (if (true : Bool) = true then 1 else 0) = 1 from rfl] at hcount
      rw [show (if (false : Bool) = true then 1 else 0) = 0 from rfl] at hcount
      omega
    · rw [hf] at hcount
      rw [show (if (false : Bool) = true then 1 else 0) = 0 from rfl] at hcount
      omega
  · intro es t
    have hfin : (hsRun (mkHandshake code playerIds) (es ++ [HsEvent.timeout t])).1.epochSent = true := by
      rw [hsRun_append]
      simp only [hsRun]
      exact hsStep_timeout_sent _ t
    have hcount := hsRun_count (es ++ [HsEvent.timeout t]) (mkHandshake code playerIds)
    rw [hbase, hfin] at hcount
    rw [show (if (true : Bool) = true then 1 else 0) = 1 from rfl] at hcount
    rw [show (if (false : Bool) = true then 1 else 0) = 0 from rfl] at hcount
    omega
  · intro es hall
    have hcount := hsRun_count es (mkHandshake code playerIds)
    rw [hbase] at hcount
    rcases Bool.eq_false_or_eq_true (hsRun (mkHandshake code playerIds) es).1.epochSent with hf' | hf
    · rw [hf'] at hcount
      rw [show (if (true : Bool) = true then 1 else 0) = 1 from rfl] at hcount
      rw [show (if (false : Bool) = true then 1 else 0) = 0 from rfl] at hcount
      omega
    · exfalso
      have hinv : (mkHandshake code playerIds).epochSent = false →
          ¬ ∀ p ∈ (mkHandshake code playerIds).players, p ∈ (mkHandshake code playerIds).readySet := by
        intro _ hcov
        obtain ⟨p, hp⟩ := List.exists_mem_of_ne_nil playerIds hne
        exact absurd (hcov p hp) (List.not_mem_nil p)
      apply hsRun_no_cover es (mkHandshake code playerIds) hinv hf
      intro p hp
      rw [hsRun_players] at hp
      obtain ⟨t, ht⟩ := hall p hp
      exact hsRun_ready_in_readySet es (mkHandshake code playerIds) p t hf ht
  · intro es x hx
    exact hsRun_out_shape es (mkHandshake code playerIds) x hx

/-- Concrete instantiation of the start-handshake theorem: a two-player
room whose players send ready at distinct instants gets exactly one epoch
broadcast. -/
theorem start_handshake_single_epoch_witness :
    (["a", "b"] : List String) ≠ [] ∧
    (hsRun (mkHandshake "AB" ["a", "b"])
      [HsEvent.ready "a" 5, HsEvent.ready "b" 9]).2.length = 1 :=
  ⟨by decide,
   (start_handshake_single_epoch "AB" ["a", "b"] (by decide)).2.2.1
     [HsEvent.ready "a" 5, HsEvent.ready "b" 9]
     (by
       intro p hp
       rcases List.mem_cons.mp hp with h | h
       · exact ⟨5, by rw [h]; decide⟩
       · have hb : p = "b" := by simpa using h
         exact ⟨9, by rw [hb]; decide⟩)⟩

/-- C2: for every reveal-obstacle (`reveal-pipe`) message from the room's
host (spec-modelled: the server-side relay is absent from `src`, so it is
modelled from the spec in `revealObstacleRelay`): the server relays the
message to the room's channel excluding the sender, carrying the received
index verbatim for every possible index — it computes and validates
nothing. -/
theorem reveal_obstacle_relayed_verbatim (room : Room) (sender roomCode : String)
    (index : Int) (h : sender = room.creator) :
    revealObstacleRelay room sender roomCode index =
      [Emit.roomExceptSender roomCode sender (Msg.revealPipe index)] := by
  simp [revealObstacleRelay, h]

/-- Concrete instantiation of the reveal relay theorem. -/
theorem reveal_obstacle_relayed_verbatim_witness :
    ("a" : String) = demoRoomA.creator ∧
    revealObstacleRelay demoRoomA "a" "AB" 37 =
      [Emit.roomExceptSender "AB" "a" (Msg.revealPipe 37)] :=
  ⟨rfl, reveal_obstacle_relayed_verbatim demoRoomA "a" "AB" 37 rfl⟩

theorem reachable_demo1 : Reachable demo1 :=
  Reachable.step initialState "a" (RawEvent.payload (Event.createRoom "AB" "Alice" none))
    demo1 (createRoomStep initialState "a" "AB" "Alice" none).2 Reachable.init rfl

/-- C3: for every game-over request on an existing room, the server
broadcasts as winner a player of `players` whose score is maximal, and
every player strictly earlier in join order than the winner has a strictly
smaller score — so score ties resolve to the lowest index in `players`. -/
theorem game_over_winner_first_max (s : ServerState) (sock c : String) (room : Room)
    (hget : mapGet s.rooms c = some room) (hne : room.players ≠ []) :
    ∃ w l1 l2,
      serverStep s sock (RawEvent.payload (Event.gameOver c)) =
        Except.ok (s, [Emit.room c (Msg.gameOverMsg w)]) ∧
      room.players = l1 ++ w :: l2 ∧
      (∀ p ∈ room.players, p.score ≤ w.score) ∧
      (∀ p ∈ l1, p.score < w.score) := by
  cases hps : room.players with
  | nil => exact absurd hps hne
  | cons p ps =>
      obtain ⟨l1, l2, hdec, hlt, hle⟩ := winnerFold_first_max ps p
      refine ⟨ps.foldl (fun prev cur => if cur.score > prev.score then cur else prev) p,
        l1, l2, ?_, ?_, ?_, ?_⟩
      · simp only [serverStep]
        exact gameOverStep_found s sock c room p ps hget hps
      · exact hdec
      · intro q hq; exact hle q hq
      · exact hlt

/-- Concrete instantiation of the winner theorem on a room with a score
tie at the maximum: the winner is the tied player with the lowest index. -/
theorem game_over_winner_first_max_witness :
    (mapGet demoTieState.rooms "AB" = some demoRoomTie ∧ demoRoomTie.players ≠ []) ∧
    (∃ w l1 l2,
      serverStep demoTieState "a" (RawEvent.payload (Event.gameOver "AB")) =
        Except.ok (demoTieState, [Emit.room "AB" (Msg.gameOverMsg w)]) ∧
      demoRoomTie.players = l1 ++ w :: l2 ∧
      (∀ p ∈ demoRoomTie.players, p.score ≤ w.score) ∧
      (∀ p ∈ l1, p.score < w.score)) :=
  ⟨⟨rfl, by decide⟩,
   game_over_winner_first_max demoTieState "a" "AB" demoRoomTie rfl (by decide)⟩

/-- C4 counterexample: the `game-over` handler on an unknown room code
returns silently — the output list is empty, so no unicast error is sent
to the requester, contrary to the claim that every room-carrying message
with an unknown code yields a unicast error. -/
theorem unknown_room_game_over_silent :
    serverStep initialState "s1" (RawEvent.payload (Event.gameOver "ZZZZ")) =
      Except.ok (initialState, []) := rfl

/-- C4 (amended): on an unknown room code every room-carrying handler does
no further processing and leaves all state unchanged, but only `join-room`
and `start-game` unicast a "Room not found" error; `game-over`,
`update-score`, `update-position`, `player-died`, `restart-game` and
`update-multiplier` return silently with no emission at all. -/
theorem unknown_room_dispatch (s : ServerState) (sock c : String)
    (h : mapGet s.rooms c = none) :
    (∀ n, serverStep s sock (RawEvent.payload (Event.joinRoom c n)) =
      Except.ok (s, [Emit.unicast sock (Msg.errorMsg "Room not found")])) ∧
    serverStep s sock (RawEvent.payload (Event.startGame c)) =
      Except.ok (s, [Emit.unicast sock (Msg.errorMsg "Room not found")]) ∧
    serverStep s sock (RawEvent.payload (Event.gameOver c)) = Except.ok (s, []) ∧
    (∀ v, serverStep s sock (RawEvent.payload (Event.updateScore c v)) = Except.ok (s, [])) ∧
    (∀ y a, serverStep s sock (RawEvent.payload (Event.updatePosition c y a)) = Except.ok (s, [])) ∧
    serverStep s sock (RawEvent.payload (Event.playerDied c)) = Except.ok (s, []) ∧
    serverStep s sock (RawEvent.payload (Event.restartGame c)) = Except.ok (s, []) ∧
    (∀ v, serverStep s sock (RawEvent.payload (Event.updateMultiplier c v)) = Except.ok (s, [])) := by
  refine ⟨?_, ?_, ?_, ?_, ?_, ?_, ?_, ?_⟩
  · intro n
    simp only [serverStep]
    rw [joinRoomStep_not_found s sock c n h]
  · simp only [serverStep]
    rw [startGameStep_not_found s sock c h]
  · simp only [serverStep]
    exact gameOverStep_not_found s sock c h
  · intro v
    simp only [serverStep]
    rw [updateScoreStep_not_found s sock c v h]
  · intro y a
    simp only [serverStep]
    rw [updatePositionStep_not_found s sock c y a h]
  · simp only [serverStep]
    rw [playerDiedStep_not_found s sock c h]
  · simp only [serverStep]
    rw [restartGameStep_not_found s sock c h]
  · intro v
    simp only [serverStep]
    rw [updateMultiplierStep_not_found s sock c v h]

/-- Concrete instantiation of the unknown-room dispatch theorem at the
empty registry. -/
theorem unknown_room_dispatch_witness :
    mapGet initialState.rooms "Q" = none ∧
    ((∀ n, serverStep initialState "s1" (RawEvent.payload (Event.joinRoom "Q" n)) =
      Except.ok (initialState, [Emit.unicast "s1" (Msg.errorMsg "Room not found")])) ∧
    serverStep initialState "s1" (RawEvent.payload (Event.startGame "Q")) =
      Except.ok (initialState, [Emit.unicast "s1" (Msg.errorMsg "Room not found")]) ∧
    serverStep initialState "s1" (RawEvent.payload (Event.gameOver "Q")) = Except.ok (initialState, []) ∧
    (∀ v, serverStep initialState "s1" (RawEvent.payload (Event.updateScore "Q" v)) = Except.ok (initialState, [])) ∧
    (∀ y a, serverStep initialState "s1" (RawEvent.payload (Event.updatePosition "Q" y a)) = Except.ok (initialState, [])) ∧
    serverStep initialState "s1" (RawEvent.payload (Event.playerDied "Q")) = Except.ok (initialState, []) ∧
    serverStep initialState "s1" (RawEvent.payload (Event.restartGame "Q")) = Except.ok (initialState, []) ∧
    (∀ v, serverStep initialState "s1" (RawEvent.payload (Event.updateMultiplier "Q" v)) = Except.ok (initialState, []))) :=
  ⟨rfl, unknown_room_dispatch initialState "s1" "Q" rfl⟩

/-- C5: in every reachable state no room holds more than 4 players; a join
on a full room produces exactly one RoomFull unicast to the requester and
leaves every piece of state unchanged; a join on a non-full existing room
appends the player, installs the updated room, and broadcasts membership,
room code and creator id to the room channel, which by then includes the
joiner. -/
theorem join_room_capacity (s : ServerState) (hs : Reachable s) (sock c n : String) :
    (∀ pr ∈ s.rooms, pr.2.players.length ≤ 4) ∧
    (∀ room, mapGet s.rooms c = some room → room.players.length ≥ 4 →
      joinRoomStep s sock c n =
        (s, [Emit.unicast sock (Msg.errorMsg "Room is full (max 4 players)")])) ∧
    (∀ room, mapGet s.rooms c = some room → room.players.length < 4 →
      joinRoomStep s sock c n =
        ({ rooms := mapSet s.rooms c { room with players := room.players ++ [newPlayer sock n] }
           channels := s.channels ++ [(sock, c)] },
         [Emit.room c (Msg.playerJoined (room.players ++ [newPlayer sock n]) c room.creator)]) ∧
      sock ∈ roomMembers (joinRoomStep s sock c n).1 c) := by
  refine ⟨fun pr hpr => ((reachable_roomsOK s hs).1 pr hpr).2, ?_, ?_⟩
  · intro room hget hfull
    exact joinRoomStep_full s sock c n room hget hfull
  · intro room hget hcap
    refine ⟨joinRoomStep_adds s sock c n room hget hcap, ?_⟩
    rw [joinRoomStep_adds s sock c n room hget hcap]
    simp only [roomMembers]
    refine List.mem_map.mpr ⟨(sock, c), List.mem_filter.mpr ⟨?_, by simp⟩, rfl⟩
    exact List.mem_append_right _ (List.mem_singleton.mpr rfl)

/-- Concrete instantiation of the capacity theorem: after Bob joins room
"AB" of the reachable state `demo1`, Bob's connection is in the room
channel that receives the membership broadcast. -/
theorem join_room_capacity_witness :
    Reachable demo1 ∧
    ("b" : String) ∈ roomMembers (joinRoomStep demo1 "b" "AB" "Bob").1 "AB" :=
  ⟨reachable_demo1,
   ((join_room_capacity demo1 reachable_demo1 "b" "AB" "Bob").2.2 demoRoomA rfl (by decide)).2⟩

/-- C6 counterexample: `create-room` checks nothing against the registry —
starting from the reachable state `demo1` (live room "AB" created by
connection "a"), a second create-room whose generated code collides with
"AB" silently overwrites the live room: the code now resolves to the new
room with creator "z" and player Zoe, and Alice's room is gone. -/
theorem create_room_overwrites_on_collision :
    Reachable demo1 ∧
    (mapGet demo1.rooms "AB").map Room.creator = some "a" ∧
    (mapGet (createRoomStep demo1 "z" "AB" "Zoe" none).1.rooms "AB").map Room.creator = some "z" ∧
    (mapGet (createRoomStep demo1 "z" "AB" "Zoe" none).1.rooms "AB").map Room.players =
      some [newPlayer "z" "Zoe"] :=
  ⟨reachable_demo1, rfl, rfl, rfl⟩

/-- C6 (amended): the codes of all simultaneously-live rooms are pairwise
distinct at every reachable instant — but only because the registry is a
map keyed by code, not because `create-room` checks the generated code
against the registry: it performs no such check, and a colliding generated
code overwrites the existing live room (see the counterexample). -/
theorem room_codes_distinct (s : ServerState) (hs : Reachable s) :
    (s.rooms.map Prod.fst).Nodup :=
  (reachable_roomsOK s hs).2

/-- Concrete instantiation of the code-distinctness theorem. -/
theorem room_codes_distinct_witness :
    Reachable demo1 ∧ (demo1.rooms.map Prod.fst).Nodup :=
  ⟨reachable_demo1, room_codes_distinct demo1 reachable_demo1⟩

/-- C7 counterexample: `restart-game` has no creator check.  In the
reachable state `demo1` (room "AB", creator "a", round not started), a
restart request from the unrelated connection "z" is accepted: no
not-authorized error is unicast, a `game-restart` broadcast goes out, and
the room's started flag flips to true — so the creator is not the sole
holder of the start/restart privilege. -/
theorem restart_game_no_auth_check :
    Reachable demo1 ∧
    ("z" : String) ≠ demoRoomA.creator ∧
    (mapGet demo1.rooms "AB").map Room.gameStarted = some false ∧
    restartGameStep demo1 "z" "AB" =
      ({ demo1 with rooms := mapSet demo1.rooms "AB" { demoRoomA with gameStarted := true } },
       [Emit.room "AB" (Msg.gameRestart demoRoomA.players demoRoomA.timeLimit)]) ∧
    (mapGet (restartGameStep demo1 "z" "AB").1.rooms "AB").map Room.gameStarted = some true :=
  ⟨reachable_demo1, by decide, rfl, rfl, rfl⟩

/-- C7 (amended): `start-game` alone enforces the creator privilege — a
non-creator start request receives a unicast not-authorized error with all
state unchanged, and only the creator's request sets the started flag via
`start-game`; but `restart-game` performs no authorization check at all:
a request from any connection sets the room's started flag and broadcasts
`game-restart`. -/
theorem start_game_creator_only (s : ServerState) (sock c : String) (room : Room)
    (hget : mapGet s.rooms c = some room) :
    (sock ≠ room.creator →
      serverStep s sock (RawEvent.payload (Event.startGame c)) =
        Except.ok (s, [Emit.unicast sock (Msg.errorMsg "Only the room creator can start the game")])) ∧
    (sock = room.creator →
      serverStep s sock (RawEvent.payload (Event.startGame c)) =
        Except.ok ({ s with rooms := mapSet s.rooms c { room with gameStarted := true } },
          [Emit.room c (Msg.gameStart room.players room.timeLimit)])) ∧
    (∀ anySock, serverStep s anySock (RawEvent.payload (Event.restartGame c)) =
      Except.ok ({ s with rooms := mapSet s.rooms c { room with gameStarted := true } },
        [Emit.room c (Msg.gameRestart room.players room.timeLimit)])) := by
  refine ⟨?_, ?_, ?_⟩
  · intro hne
    simp only [serverStep]
    rw [startGameStep_not_creator s sock c room hget hne]
  · intro heq
    simp only [serverStep]
    rw [startGameStep_creator s sock c room hget heq]
  · intro anySock
    simp only [serverStep]
    rw [restartGameStep_found s anySock c room hget]

/-- Concrete instantiation of the start authorization theorem: the
non-creator "z" is refused by `start-game`. -/
theorem start_game_creator_only_witness :
    mapGet demo1.rooms "AB" = some demoRoomA ∧
    serverStep demo1 "z" (RawEvent.payload (Event.startGame "AB")) =
      Except.ok (demo1, [Emit.unicast "z" (Msg.errorMsg "Only the room creator can start the game")]) :=
  ⟨rfl, (start_game_creator_only demo1 "z" "AB" demoRoomA rfl).1 (by decide)⟩

/-- C8 counterexample: a `join-room` message delivered with a missing
(`undefined`/`null`) payload makes the handler's destructuring parameter
`({ roomCode, playerName }) => ...` throw a TypeError before the body
runs — the socket event handlers are not total on arbitrary payloads. -/
theorem null_payload_throws :
    serverStep initialState "s1" (RawEvent.nullPayload EventKind.joinRoom) =
      Except.error JsError.typeError := rfl

/-- C8 (amended): in every reachable state, every handler invoked with any
destructurable payload (any value other than `null`/`undefined`) runs to
completion without throwing; a `null`/`undefined` payload throws a
TypeError in the destructuring parameter (see the counterexample).  The
only other throw point, the `game-over` winner reduce on an empty player
list, is unreachable. -/
theorem handlers_total_on_reachable (s : ServerState) (hs : Reachable s)
    (sock : String) (e : Event) :
    ∃ s' out, serverStep s sock (RawEvent.payload e) = Except.ok (s', out) := by
  cases e with
  | gameOver c =>
      cases hget : mapGet s.rooms c with
      | none =>
          exact ⟨s, [], by simp only [serverStep]; exact gameOverStep_not_found s sock c hget⟩
      | some room =>
          have hne := ((reachable_roomsOK s hs).1 (c, room) (mapGet_mem s.rooms c room hget)).1
          cases hps : room.players with
          | nil => exact absurd hps hne
          | cons p ps =>
              exact ⟨s, _, by simp only [serverStep]; exact gameOverStep_found s sock c room p ps hget hps⟩
  | webrtcIce cand t c =>
      by_cases ht : truthyStr t
      · exact ⟨s, [Emit.unicast (t.getD "") (Msg.webrtcIceMsg cand)], by simp [serverStep, ht]⟩
      · by_cases hc : truthyStr c
        · exact ⟨s, [Emit.roomExceptSender (c.getD "") sock (Msg.webrtcIceMsg cand)],
            by simp [serverStep, ht, hc]⟩
        · exact ⟨s, [], by simp [serverStep, ht, hc]⟩
  | createRoom g n t => exact ⟨_, _, rfl⟩
  | joinRoom c n => exact ⟨_, _, rfl⟩
  | startGame c => exact ⟨_, _, rfl⟩
  | updateScore c v => exact ⟨_, _, rfl⟩
  | updatePosition c y a => exact ⟨_, _, rfl⟩
  | playerDied c => exact ⟨_, _, rfl⟩
  | restartGame c => exact ⟨_, _, rfl⟩
  | updateMultiplier c v => exact ⟨_, _, rfl⟩
  | birdFlap c => exact ⟨_, _, rfl⟩
  | webrtcOffer off c => exact ⟨_, _, rfl⟩
  | webrtcAnswer ans t => exact ⟨_, _, rfl⟩
  | disconnect => exact ⟨_, _, rfl⟩

/-- Concrete instantiation of the totality theorem in the reachable state
`demo1`. -/
theorem handlers_total_on_reachable_witness :
    Reachable demo1 ∧
    (∃ s' out, serverStep demo1 "q" (RawEvent.payload (Event.gameOver "AB")) =
      Except.ok (s', out)) :=
  ⟨reachable_demo1,
   handlers_total_on_reachable demo1 reachable_demo1 "q" (Event.gameOver "AB")⟩

/-- C9: a client not in a room who joins it and then disconnects before
the round starts leaves the room's membership list exactly as it was
before the join, and the updated membership is broadcast to the room; and
in general, a disconnect that empties a room's player list deletes the
room from the registry instead of broadcasting. -/
theorem join_then_disconnect_roundtrip (s : ServerState) (hs : Reachable s)
    (sock c n : String) (room : Room)
    (hget : mapGet s.rooms c = some room)
    (hfresh : ∀ p ∈ room.players, p.id ≠ sock)
    (hcap : room.players.length < 4)
    (hnotstarted : room.gameStarted = false) :
    ((mapGet (disconnectStep (joinRoomStep s sock c n).1 sock).1.rooms c).map Room.players =
        some room.players ∧
      Emit.room c (Msg.playerLeft room.players) ∈
        (disconnectStep (joinRoomStep s sock c n).1 sock).2) ∧
    (∀ r2 c2, mapGet s.rooms c2 = some r2 → (∀ p ∈ r2.players, p.id = sock) →
      mapGet (disconnectStep s sock).1.rooms c2 = none) := by
  constructor
  · have hreach1 : Reachable (joinRoomStep s sock c n).1 :=
      Reachable.step s sock (RawEvent.payload (Event.joinRoom c n)) _
        (joinRoomStep s sock c n).2 hs rfl
    have hnd1 : ((joinRoomStep s sock c n).1.rooms.map Prod.fst).Nodup :=
      (reachable_roomsOK _ hreach1).2
    have hget1 : mapGet (joinRoomStep s sock c n).1.rooms c =
        some { room with players := room.players ++ [newPlayer sock n] } := by
      rw [joinRoomStep_adds s sock c n room hget hcap]
      exact mapGet_mapSet_self _ _ _
    have hfilter : (room.players ++ [newPlayer sock n]).filter (fun p => p.id ≠ sock) =
        room.players := by
      rw [List.filter_append]
      have h1 : room.players.filter (fun p => p.id ≠ sock) = room.players :=
        List.filter_eq_self.mpr (fun p hp => by simpa using hfresh p hp)
      have h2 : ([newPlayer sock n] : List Player).filter (fun p => p.id ≠ sock) = [] := by
        simp [newPlayer]
      rw [h1, h2, List.append_nil]
    have hne : room.players ≠ [] :=
      ((reachable_roomsOK s hs).1 (c, room) (mapGet_mem s.rooms c room hget)).1
    have hprune : pruneRoom sock (c, { room with players := room.players ++ [newPlayer sock n] }) =
        some (c, { room with players := room.players }) := by
      simp only [pruneRoom]
      rw [hfilter]
      rw [if_neg (by simpa [List.isEmpty_iff] using hne)]
    have hmget : mapGet ((joinRoomStep s sock c n).1.rooms.filterMap (pruneRoom sock)) c =
        some { room with players := room.players } := by
      rw [mapGet_filterMap_pruneRoom sock _ c _ hnd1 hget1, hprune]
      rfl
    constructor
    · show (mapGet ((joinRoomStep s sock c n).1.rooms.filterMap (pruneRoom sock)) c).map
        Room.players = some room.players
      rw [hmget]
      rfl
    · have hmem : (c, { room with players := room.players }) ∈
          (joinRoomStep s sock c n).1.rooms.filterMap (pruneRoom sock) :=
        mapGet_mem _ _ _ hmget
      show Emit.room c (Msg.playerLeft room.players) ∈
        ((joinRoomStep s sock c n).1.rooms.filterMap (pruneRoom sock)).map
          (fun pr => Emit.room pr.1 (Msg.playerLeft pr.2.players))
      exact List.mem_map.mpr ⟨(c, { room with players := room.players }), hmem, rfl⟩
  · intro r2 c2 hget2 hall
    have hnd := (reachable_roomsOK s hs).2
    have hfilter2 : r2.players.filter (fun p => p.id ≠ sock) = [] := by
      apply List.filter_eq_nil_iff.mpr
      intro p hp
      simpa using hall p hp
    have hprune2 : pruneRoom sock (c2, r2) = none := by
      simp only [pruneRoom]
      rw [hfilter2]
      rfl
    show mapGet (s.rooms.filterMap (pruneRoom sock)) c2 = none
    rw [mapGet_filterMap_pruneRoom sock s.rooms c2 r2 hnd hget2, hprune2]
    rfl

/-- Concrete instantiation of the round-trip theorem: Bob joins Alice's
room "AB" and disconnects; the membership is Alice's original list again. -/
theorem join_then_disconnect_roundtrip_witness :
    (Reachable demo1 ∧ mapGet demo1.rooms "AB" = some demoRoomA ∧
      (∀ p ∈ demoRoomA.players, p.id ≠ "b") ∧ demoRoomA.players.length < 4 ∧
      demoRoomA.gameStarted = false) ∧
    (mapGet (disconnectStep (joinRoomStep demo1 "b" "AB" "Bob").1 "b").1.rooms "AB").map
      Room.players = some demoRoomA.players :=
  ⟨⟨reachable_demo1, rfl, by decide, by decide, rfl⟩,
   ((join_then_disconnect_roundtrip demo1 reachable_demo1 "b" "AB" "Bob" demoRoomA
      rfl (by decide) (by decide) rfl).1).1⟩

/-- C10: in every reachable registry state every live room has a
non-empty player list (a room is born with its creator and is deleted in
the same step that removes its last player), so the winner fold of the
`game-over` handler always runs on a non-empty list and succeeds. -/
theorem rooms_never_empty (s : ServerState) (hs : Reachable s) :
    ∀ pr ∈ s.rooms, pr.2.players ≠ [] ∧ ∃ w, winnerReduce pr.2.players = Except.ok w := by
  intro pr hpr
  have hne := ((reachable_roomsOK s hs).1 pr hpr).1
  refine ⟨hne, ?_⟩
  cases hps : pr.2.players with
  | nil => exact absurd hps hne
  | cons p ps =>
      refine ⟨ps.foldl (fun prev cur => if cur.score > prev.score then cur else prev) p, ?_⟩
      simp only [winnerReduce]

/-- Concrete instantiation of the non-empty-rooms theorem. -/
theorem rooms_never_empty_witness :
    Reachable demo1 ∧
    ∀ pr ∈ demo1.rooms, pr.2.players ≠ [] ∧ ∃ w, winnerReduce pr.2.players = Except.ok w :=
  ⟨reachable_demo1, rooms_never_empty demo1 reachable_demo1⟩
